import Mathlib

/-!
Shallow embedding of the rule/computation core of `src/APGPA.py`
(Transcript and Graduation Requirements Tracker): score normalization,
the GPA aggregator `calculate_gpa`, the graduation-requirement tracker
(`update_student_data` / `check_graduation`), and the course-name
resolver (`string_similarity` / `has_common_words` / `find_best_match`).

Python numbers (ints and floats) are modelled as exact rationals `ℚ`;
scores, once parsed, are integers `ℤ`.  Python dicts are modelled as
insertion-ordered association lists.  Python sets are modelled as
insertion-ordered duplicate-free lists; set iteration order in CPython
is unspecified, so statements below never depend on the order of a
modelled set beyond the fixed order chosen here.  A fallible dict
index (`GRADE_SCALE[scale]`, a potential `KeyError`) is modelled with
`Except String`.
-/

namespace APGPA

set_option maxRecDepth 16384

/-- A course record, the per-course dict stored in `Student.grades`
(fields `course`, `score`, `scale`, `credits`, `subject` as written by
`get_semester_grades`).  `scale = none` / `subject = none` model a dict
that is missing that key, so that `course.get("scale", "AP")` and
`course.get("subject", "")` are rendered by `Option.getD`. -/
structure Course where
  course : String
  score : Int
  credits : ℚ
  scale : Option String := none
  subject : Option String := none
deriving Repr, DecidableEq

/-- `GRADE_SCALE['AP']` of the source, an insertion-ordered list of
`((low, high), points)` bands. -/
def GRADE_SCALE_AP : List ((Int × Int) × ℚ) :=
  [((97, 100), 43/10), ((90, 96), 4), ((80, 89), 7/2),
   ((70, 79), 3), ((60, 69), 2), ((0, 59), 0)]

/-- `GRADE_SCALE['CNCC']` of the source. -/
def GRADE_SCALE_CNCC : List ((Int × Int) × ℚ) :=
  [((97, 100), 43/10), ((85, 96), 4), ((70, 84), 3),
   ((60, 69), 2), ((0, 59), 0)]

/-- The `GRADE_SCALE` dict: indexing with an unknown key is a
`KeyError` in Python, hence `none` here. -/
def GRADE_SCALE (scale : String) : Option (List ((Int × Int) × ℚ)) :=
  if scale = "AP" then some GRADE_SCALE_AP
  else if scale = "CNCC" then some GRADE_SCALE_CNCC
  else none

/-- One entry of the `GRADUATION_REQUIREMENTS` dict: the number of
required semesters and the canonical course-name list of the subject
category. -/
structure Requirement where
  semesters : Nat
  courses : List String
deriving Repr, DecidableEq

/-- The `GRADUATION_REQUIREMENTS` dict, in source insertion order. -/
def GRADUATION_REQUIREMENTS : List (String × Requirement) :=
  [("Chinese", ⟨6, ["Chinese"]⟩),
   ("Chinese_Social_Studies",
     ⟨3, ["Chinese History", "Chinese Geography", "Chinese Politics"]⟩),
   ("English",
     ⟨6, ["Pre-AP English", "Pre-AP English Honors", "AP Seminar 10",
          "English 11 Honors", "English 12 Literature Honors",
          "AP English Language and Composition", "AP English Literature"]⟩),
   ("Mathematics",
     ⟨6, ["Pre-Calculus", "AP Pre-Calculus", "AP Calculus AB",
          "AP Calculus BC", "AP Statistics", "Calculus III",
          "Differential Equations", "Probability Theory"]⟩),
   ("Social_Science",
     ⟨4, ["Advanced Economics", "Developmental Psychology Seminar",
          "Political Science & Law", "AP Microeconomics",
          "AP Micro/Macroeconomics", "AP Psychology",
          "AP Environmental Science", "Intro to Psychology",
          "Sociology", "Spanish I", "Spanish II",
          "AP Spanish Language and Culture", "German I",
          "German II", "German III", "French I", "French II",
          "AP French", "Japanese I", "Japanese II",
          "Japanese III", "Korean", "Russian"]⟩),
   ("Science",
     ⟨6, ["Biology", "Biology Honors", "AP Biology",
          "Neuropathology", "Marine Biology", "Chemistry Honors",
          "AP Chemistry", "Physics", "AP Physics C: Mechanics",
          "AP Physics C: E/M", "AP Physics 1", "AP Physics 2",
          "Advanced Physics"]⟩),
   ("Technology", ⟨2, ["Technology"]⟩),
   ("Fine_And_Performing_Arts",
     ⟨2, ["AP 3-D Art and Design", "AP 2-D Art and Design",
          "AP Drawing", "Visual Arts", "Visual Arts II",
          "Photography", "AP Music Theory",
          "Instrumental Ensemble I (Y10 Introduction)",
          "Instrumental Ensemble I (CNCC Semester Introduction)",
          "Instrumental Ensemble II", "Vocal Ensemble I",
          "Vocal Ensemble II", "Guitar I", "Guitar II",
          "Dance", "Dance I", "Dance II", "Drama I",
          "Drama II", "Independent Video Production"]⟩),
   ("Physical_Education", ⟨6, ["PE"]⟩),
   ("Electives",
     ⟨6, ["AP Computer Science A", "AP Computer Science Principles",
          "Graphics Programming in Java", "AP Seminar", "AP Research",
          "Entrepreneurship", "Web-Development", "Speech and Debate"]⟩),
   ("Interdisciplinary_Seminar", ⟨1, ["Interdisciplinary Research Seminar"]⟩)]

/-- `NON_GPA_SUBJECTS` of the source. -/
def NON_GPA_SUBJECTS : List String :=
  ["Technology", "Physical_Education", "Fine_And_Performing_Arts"]

/-- `GRADUATION_REQUIREMENTS[subject]['courses']` (the dict index always
succeeds in the source because it is only used with the three keys of
`NON_GPA_SUBJECTS`). -/
def gradReqCourses (subject : String) : List String :=
  match GRADUATION_REQUIREMENTS.lookup subject with
  | some r => r.courses
  | none => []

/-- The `subject_found` flag computed by the exclusion loop in each of
the three aggregation branches of `calculate_gpa`: direct match of the
record's subject against `NON_GPA_SUBJECTS` (method 1), or literal
match of the record's course name against a non-GPA category's course
list (method 2).  The source loop breaks early once the flag is set;
`List.any` of the disjunction computes the same flag. -/
def subjectFound (subject_name course_name : String) : Bool :=
  NON_GPA_SUBJECTS.any fun s =>
    subject_name = s || (gradReqCourses s).any (fun cn => course_name = cn)

/-- The band-lookup loop `for (low, high), points in GRADE_SCALE[scale].items():
if low <= score <= high: ...; break` — the first band containing the
score, or `none` when the loop falls through. -/
def findBand (bands : List ((Int × Int) × ℚ)) (score : Int) : Option ℚ :=
  match bands with
  | [] => none
  | ((low, high), points) :: rest =>
    if low ≤ score ∧ score ≤ high then some points else findBand rest score

/-- The loop body applied to one course record in every branch of
`calculate_gpa`: skip when `scale == "Not Included"`, skip when
`subject_found`, otherwise look up the bands (a `KeyError` — modelled
as `.error scale` — when the scale value is unknown) and accumulate
`points * credits` and `credits` for the matching band, accumulating
nothing when no band contains the score. -/
def processCourse (acc : ℚ × ℚ) (course : Course) : Except String (ℚ × ℚ) :=
  let scale := course.scale.getD "AP"
  if scale = "Not Included" then .ok acc
  else if subjectFound (course.subject.getD "") course.course then .ok acc
  else
    match GRADE_SCALE scale with
    | none => .error scale
    | some bands =>
      match findBand bands course.score with
      | none => .ok acc
      | some points => .ok (acc.1 + points * course.credits, acc.2 + course.credits)

/-- Accumulation of `(total_points, total_credits)` over a list of
course records, propagating a `KeyError`. -/
def gpaAccum (courses : List Course) (acc : ℚ × ℚ) : Except String (ℚ × ℚ) :=
  match courses with
  | [] => .ok acc
  | c :: rest =>
    match processCourse acc c with
    | .error e => .error e
    | .ok acc2 => gpaAccum rest acc2

/-- `total_points / total_credits if total_credits else 0`. -/
def finalize : ℚ × ℚ → ℚ
  | (points, credits) => if credits = 0 then 0 else points / credits

/-- A semester dict: unique key ↦ course record, in insertion order. -/
abbrev SemData := List (String × Course)

/-- A year dict: semester name ↦ semester dict. -/
abbrev YearData := List (String × SemData)

/-- The `grades` structure: year name ↦ year dict. -/
abbrev Grades := List (String × YearData)

/-- The course records of one semester (`semester_data.items()` values). -/
def semCourses (sd : SemData) : List Course := sd.map Prod.snd

/-- The course records of one year, all semesters in dict order. -/
def yearCourses (yd : YearData) : List Course :=
  yd.flatMap fun p => semCourses p.2

/-- All course records of the grades structure, in iteration order. -/
def allCourses (g : Grades) : List Course :=
  g.flatMap fun p => yearCourses p.2

/-- Scope selection of `calculate_gpa`: the three `if/elif/else`
branches.  `none` is the `return 0` case for a year or year/term that
is not present in `grades`. -/
def scopeCourses (grades : Grades) (sg ss : Option String) : Option (List Course) :=
  match sg, ss with
  | some g, some s =>
    match grades.lookup g with
    | none => none
    | some yd =>
      match yd.lookup s with
      | none => none
      | some sd => some (semCourses sd)
  | some g, none =>
    match grades.lookup g with
    | none => none
    | some yd => some (yearCourses yd)
  | none, _ => some (allCourses grades)

/-- Python truthiness of the optional `specific_grade` /
`specific_semester` arguments: `None` and the empty string are falsy. -/
def truthy (o : Option String) : Option String :=
  match o with
  | some s => if s = "" then none else some s
  | none => none

/-- `calculate_gpa(grades, specific_grade, specific_semester)`.
The result is `.error scale` when the Python code would raise a
`KeyError` looking up an unknown scale value, and `.ok` of the final
quotient (or 0) otherwise. -/
def calculate_gpa (grades : Grades) (sg ss : Option String) : Except String ℚ :=
  match scopeCourses grades (truthy sg) (truthy ss) with
  | none => .ok 0
  | some cs => (gpaAccum cs (0, 0)).map finalize

/-! ### Requirement tracker (`update_student_data` step 4 and `check_graduation`) -/

/-- The student's `requirements` dict: per ordinary subject the
`taken` semester counter, and for `Chinese_Social_Studies` the
`taken_courses` set, modelled as an insertion-ordered duplicate-free
list. -/
structure Requirements where
  taken : String → Nat
  takenCourses : List String

/-- The fresh requirement state seeded in `Student.__init__`:
all counters 0, empty course set. -/
def initialRequirements : Requirements := ⟨fun _ => 0, []⟩

/-- The first subject category of `GRADUATION_REQUIREMENTS` whose
course list contains the course name (the inner `for req_subject ...
break` loop of `update_student_data`). -/
def firstMatchingSubject (name : String) : Option String :=
  (GRADUATION_REQUIREMENTS.find? fun p => p.2.courses.contains name).map Prod.fst

/-- `set.add`: append if absent (insertion-ordered model of a Python set). -/
def addTakenCourse (l : List String) (c : String) : List String :=
  if c ∈ l then l else l ++ [c]

/-- Processing of one course name in `update_student_data`: the first
matching category gets its `taken` counter bumped, except
`Chinese_Social_Studies`, whose `taken_courses` set records the name. -/
def recordCourse (r : Requirements) (name : String) : Requirements :=
  match firstMatchingSubject name with
  | none => r
  | some subj =>
    if subj = "Chinese_Social_Studies" then
      { r with takenCourses := addTakenCourse r.takenCourses name }
    else
      { r with taken := fun s => if s = subj then r.taken s + 1 else r.taken s }

/-- `update_student_data` rebuilds the requirement state from scratch
from all course names (it creates a fresh `Student` and re-scans every
semester). -/
def updateRequirements (names : List String) : Requirements :=
  names.foldl recordCourse initialRequirements

/-- The course names scanned by `update_student_data`: years "10",
"11", "12", semesters "Fall", "Spring", in that fixed order. -/
def studentCourseNames (g : Grades) : List String :=
  ["10", "11", "12"].flatMap fun y =>
    ["Fall", "Spring"].flatMap fun s =>
      match g.lookup y with
      | none => []
      | some yd =>
        match yd.lookup s with
        | none => []
        | some sd => sd.map fun p => p.2.course

/-- `subject.replace('_', ' ')`: with the one-character pattern `"_"`
this is exactly a character map. -/
def replaceUnderscores (s : String) : String :=
  String.mk (s.data.map fun c => if c = '_' then ' ' else c)

/-- `', '.join` over the chosen fixed order (Python joins a set in
unspecified iteration order; everything proved below is independent of
that order beyond the order fixed here). -/
def joinComma : List String → String
  | [] => ""
  | [x] => x
  | x :: xs => x ++ ", " ++ joinComma xs

/-- The deficiency entries contributed by one subject category in
`check_graduation`: for `Chinese_Social_Studies` the set-difference
message when the three required courses are not all taken, otherwise
the semester-count message when `taken < required`. -/
def subjectDeficiency (r : Requirements) (subject : String) (req : Requirement) :
    List String :=
  if subject = "Chinese_Social_Studies" then
    let missing := req.courses.filter fun c => !(r.takenCourses.contains c)
    if missing.isEmpty then []
    else [replaceUnderscores subject ++ ": Missing required courses - " ++
          joinComma missing]
  else
    if r.taken subject < req.semesters then
      [replaceUnderscores subject ++ ": Need " ++ toString req.semesters ++
       " semesters, only completed " ++ toString (r.taken subject)]
    else []

/-- `check_graduation(student)`: the deficiency list, iterating the
requirement dict in its insertion order (`GRADUATION_REQUIREMENTS`
order, as seeded by `Student.__init__`). -/
def check_graduation (r : Requirements) : List String :=
  GRADUATION_REQUIREMENTS.flatMap fun p => subjectDeficiency r p.1 p.2

/-! ### Score normalization (`round_score` / `parse_score`)

Python ints and floats are modelled as exact rationals; `round`
(round-half-to-even) is exact on rationals.  The model of `float(str)`
covers plain decimal literals (optional sign, digits, optional
fractional part); scientific notation, `inf`/`nan` and underscore
separators are not modelled. -/

/-- The raw score input of `parse_score`: `None`, a number (int or
float), or a string. -/
inductive ScoreValue : Type where
  | none : ScoreValue
  | num (q : ℚ) : ScoreValue
  | str (s : String) : ScoreValue
deriving Repr, DecidableEq

/-- Python `round` with no `ndigits`: round half to even. -/
def roundHalfEven (q : ℚ) : Int :=
  let f := ⌊q⌋
  let r := q - f
  if r < 1/2 then f
  else if 1/2 < r then f + 1
  else if f % 2 = 0 then f else f + 1

/-- Python whitespace characters stripped by `str.strip()` (ASCII part). -/
def isSpaceChar (c : Char) : Bool :=
  c = ' ' || c = '\t' || c = '\n' || c = '\x0d' || c = '\x0b' || c = '\x0c'

/-- `str.strip()` over a character list. -/
def stripChars (l : List Char) : List Char :=
  ((l.dropWhile isSpaceChar).reverse.dropWhile isSpaceChar).reverse

/-- Numeric value of a digit run. -/
def digitsVal (l : List Char) : ℚ :=
  l.foldl (fun acc c => acc * 10 + ((c.toNat - '0'.toNat : Nat) : ℚ)) 0

/-- Model of `float(s)`, restricted to plain decimal literals:
surrounding whitespace (which `float` strips), an optional sign, then
digits with at most one decimal point and at least one digit in
total. -/
def parseDecimal (s : String) : Option ℚ :=
  let cs := stripChars s.data
  let signAndRest : ℚ × List Char :=
    match cs with
    | '-' :: r => (-1, r)
    | '+' :: r => (1, r)
    | r => (1, r)
  let sign := signAndRest.1
  let rest := signAndRest.2
  let intPart := rest.takeWhile Char.isDigit
  let rest2 := rest.dropWhile Char.isDigit
  match rest2 with
  | [] => if intPart.isEmpty then none else some (sign * digitsVal intPart)
  | '.' :: frac =>
    if frac.all Char.isDigit ∧ ¬(intPart.isEmpty ∧ frac.isEmpty) then
      some (sign * (digitsVal intPart + digitsVal frac / (10 : ℚ) ^ frac.length))
    else none
  | _ => none

/-- `round_score(score)`: `None` and unparsable values give 0,
numbers are rounded to an integer. -/
def round_score : ScoreValue → Int
  | .none => 0
  | .num q => roundHalfEven q
  | .str s =>
    match parseDecimal s with
    | some q => roundHalfEven q
    | Option.none => 0

/-- `parse_score(score_value)`: numbers in the open interval (0,1) are
rescaled ×100; percent-suffixed strings drop the `%`; other strings are
parsed as decimals with the same (0,1) rescaling; anything unparsable
gives 0. -/
def parse_score : ScoreValue → Int
  | .none => 0
  | .num q =>
    let q2 := if 0 < q ∧ q < 1 then q * 100 else q
    round_score (.num q2)
  | .str raw =>
    let t := String.mk (stripChars raw.data)
    if t.contains '%' then
      match parseDecimal (t.replace "%" "") with
      | some q => round_score (.num q)
      | Option.none => 0
    else
      match parseDecimal t with
      | some q =>
        let q2 := if 0 < q ∧ q < 1 then q * 100 else q
        round_score (.num q2)
      | Option.none => 0

/-! ### Course-name resolver
(`string_similarity` / `has_common_words` / `find_best_match`)

`str.lower` and the regex `\b[a-z0-9]+\b` are modelled over ASCII
(Unicode-specific case mappings and word characters beyond ASCII are
not modelled); all course names in the program are ASCII. -/

/-- `str.lower()` over a character list (ASCII model). -/
def lowerChars (l : List Char) : List Char := l.map Char.toLower

/-- `[a-z0-9]`. -/
def isLowerAlnum (c : Char) : Bool :=
  ('a' ≤ c && c ≤ 'z') || ('0' ≤ c && c ≤ '9')

/-- A regex word character `\w` (ASCII model): the `\b` boundaries in
`\b[a-z0-9]+\b` are transitions between word and non-word characters. -/
def isWordChar (c : Char) : Bool := c.isAlphanum || c = '_'

/-- Maximal runs of word characters (accumulator holds the current run
reversed). -/
def wordRunsAux : List Char → List Char → List (List Char)
  | [], acc => if acc.isEmpty then [] else [acc.reverse]
  | c :: rest, acc =>
    if isWordChar c then wordRunsAux rest (c :: acc)
    else if acc.isEmpty then wordRunsAux rest []
    else acc.reverse :: wordRunsAux rest []

/-- `re.findall(r'\b[a-z0-9]+\b', s)`: a maximal word-character run is
matched exactly when it consists entirely of `[a-z0-9]` (a run
containing `_` or another word character has no interior word
boundary, so the pattern cannot match inside it). -/
def findallTokens (s : String) : List String :=
  ((wordRunsAux s.data []).filter fun r => r.all isLowerAlnum).map String.mk

/-- First-occurrence deduplication: the insertion-ordered model of the
Python `set(...)` comprehensions in `has_common_words`. -/
def dedupFirst (l : List String) : List String :=
  l.foldl (fun acc x => if x ∈ acc then acc else acc ++ [x]) []

/-- The token set of a string: alphanumeric tokens of at least
`minLen` characters. -/
def tokenSet (s : String) (minLen : Nat) : List String :=
  dedupFirst ((findallTokens s).filter fun t => minLen ≤ t.length)

/-- `has_common_words(a, b, min_word_length=3)`: whether the two
lower-cased strings share a token of length ≥ `minLen`, together with
the shared tokens (list order: first occurrence in `a`; Python
enumerates the set in unspecified order). -/
def has_common_words (a b : String) (minLen : Nat := 3) : Bool × List String :=
  let aw := tokenSet (String.mk (lowerChars a.data)) minLen
  let bw := tokenSet (String.mk (lowerChars b.data)) minLen
  let common := aw.filter fun w => bw.contains w
  (!common.isEmpty, common)

/-! #### `difflib.SequenceMatcher(None, a, b).ratio()`

`SequenceMatcher` with `isjunk=None` and default `autojunk=True`:
when `len(b) >= 200`, characters occurring more than `len(b)//100 + 1`
times in `b` are "popular" and are excluded from the `b2j` index.
`find_longest_match` is the `j2len` dynamic program, which returns,
under strict-improvement updates in its processing order, the longest
popular-free common substring of the two ranges that starts leftmost
in `a` and then leftmost in `b`; it then widens the result by the four
junk/non-junk extension loops.  The enumeration below computes the
same block: it scans candidate starting pairs `(i, j)` in the same
lexicographic order, takes the maximal popular-free match length from
each start, and keeps the first strict maximum. -/

/-- The autojunk "popular" test of `SequenceMatcher.__chain_b`. -/
def bIsJunk (b : List Char) (c : Char) : Bool :=
  200 ≤ b.length && b.length / 100 + 1 < b.count c

/-- Length of the maximal run of equal, non-junk characters from
`(i, j)` inside the ranges `[·, ahi)` / `[·, bhi)`.  The first
argument is fuel for structural recursion; the run is at most
`ahi - i` long, so any fuel ≥ `ahi - i` (the callers pass `ahi`)
computes the exact length. -/
def matchLen (a b : List Char) (junk : Char → Bool) :
    ℕ → ℕ → ℕ → ℕ → ℕ → ℕ
  | 0, _, _, _, _ => 0
  | fuel + 1, ahi, bhi, i, j =>
    if i < ahi ∧ j < bhi then
      match a[i]?, b[j]? with
      | some ca, some cb =>
        if ca = cb ∧ ¬ junk cb then
          matchLen a b junk fuel ahi bhi (i + 1) (j + 1) + 1
        else 0
      | _, _ => 0
    else 0

/-- One backward extension loop of `find_longest_match` (`wantJunk`
selects the junk or the non-junk loop).  The loop runs at most
`bi - alo` times, so any fuel ≥ `bi` (the callers pass `bi`) computes
the exact fixpoint. -/
def extendBack (a b : List Char) (junk : Char → Bool) (alo blo : ℕ)
    (wantJunk : Bool) : ℕ → ℕ → ℕ → ℕ → ℕ × ℕ × ℕ
  | 0, bi, bj, bk => (bi, bj, bk)
  | fuel + 1, bi, bj, bk =>
    if alo < bi ∧ blo < bj then
      match a[bi - 1]?, b[bj - 1]? with
      | some ca, some cb =>
        if junk cb = wantJunk ∧ ca = cb then
          extendBack a b junk alo blo wantJunk fuel (bi - 1) (bj - 1) (bk + 1)
        else (bi, bj, bk)
      | _, _ => (bi, bj, bk)
    else (bi, bj, bk)

/-- One forward extension loop of `find_longest_match`.  The loop runs
at most `ahi - (bi + bk)` times, so any fuel ≥ `ahi` (the callers pass
`ahi`) computes the exact fixpoint. -/
def extendFwd (a b : List Char) (junk : Char → Bool) (ahi bhi : ℕ)
    (wantJunk : Bool) : ℕ → ℕ → ℕ → ℕ → ℕ × ℕ × ℕ
  | 0, bi, bj, bk => (bi, bj, bk)
  | fuel + 1, bi, bj, bk =>
    if bi + bk < ahi ∧ bj + bk < bhi then
      match a[bi + bk]?, b[bj + bk]? with
      | some ca, some cb =>
        if junk cb = wantJunk ∧ ca = cb then
          extendFwd a b junk ahi bhi wantJunk fuel bi bj (bk + 1)
        else (bi, bj, bk)
      | _, _ => (bi, bj, bk)
    else (bi, bj, bk)

/-- The dynamic-programming stage of `find_longest_match`: scan the
candidate starting pairs `(i, j)` in lexicographic order, take the
maximal junk-free match length from each start, and keep the first
strict maximum — the leftmost longest junk-free common substring. -/
def dpBest (a b : List Char) (junk : Char → Bool)
    (alo ahi blo bhi : ℕ) : ℕ × ℕ × ℕ :=
  ((List.range' alo (ahi - alo)).flatMap fun i =>
    (List.range' blo (bhi - blo)).map fun j =>
      (i, j, matchLen a b junk ahi ahi bhi i j)).foldl
    (fun best c => if best.2.2 < c.2.2 then c else best) (alo, blo, 0)

/-- One backward extension loop applied to a `(besti, bestj, bestsize)`
triple (the loop runs at most `besti - alo` ≤ `besti` times, so fuel
`t.1` suffices). -/
def extendBackT (a b : List Char) (junk : Char → Bool) (alo blo : ℕ)
    (wantJunk : Bool) (t : ℕ × ℕ × ℕ) : ℕ × ℕ × ℕ :=
  extendBack a b junk alo blo wantJunk t.1 t.1 t.2.1 t.2.2

/-- One forward extension loop applied to a triple (the loop runs at
most `ahi - (besti + bestsize)` ≤ `ahi` times, so fuel `ahi`
suffices). -/
def extendFwdT (a b : List Char) (junk : Char → Bool) (ahi bhi : ℕ)
    (wantJunk : Bool) (t : ℕ × ℕ × ℕ) : ℕ × ℕ × ℕ :=
  extendFwd a b junk ahi bhi wantJunk ahi t.1 t.2.1 t.2.2

/-- `find_longest_match(alo, ahi, blo, bhi)`: the leftmost longest
junk-free common substring, widened by the non-junk and then the junk
extension loops (back, forward, back, forward, as in the source of
`difflib`). -/
def findLongestMatch (a b : List Char) (junk : Char → Bool)
    (alo ahi blo bhi : ℕ) : ℕ × ℕ × ℕ :=
  extendFwdT a b junk ahi bhi true
    (extendBackT a b junk alo blo true
      (extendFwdT a b junk ahi bhi false
        (extendBackT a b junk alo blo false
          (dpBest a b junk alo ahi blo bhi))))

/-- Total size of the matching blocks (`get_matching_blocks` recursion;
only the sum of block sizes is needed for `ratio`).  The fuel strictly
exceeds the recursion depth whenever it starts at `ahi - alo + 1`,
because each recursive call strictly shrinks `ahi - alo`. -/
def matchTotal (a b : List Char) (junk : Char → Bool) :
    ℕ → ℕ → ℕ → ℕ → ℕ → ℕ
  | 0, _, _, _, _ => 0
  | fuel + 1, alo, ahi, blo, bhi =>
    let r := findLongestMatch a b junk alo ahi blo bhi
    if r.2.2 = 0 then 0
    else
      r.2.2 + matchTotal a b junk fuel alo r.1 blo r.2.1 +
        matchTotal a b junk fuel (r.1 + r.2.2) ahi (r.2.1 + r.2.2) bhi

/-- `SequenceMatcher(None, a, b).ratio()`: `2 * M / T` with `T` the
total length, and 1.0 when both sequences are empty. -/
def ratioOf (a b : List Char) : ℚ :=
  let m := matchTotal a b (bIsJunk b) (a.length + 1) 0 a.length 0 b.length
  let len := a.length + b.length
  if len = 0 then 1 else 2 * (m : ℚ) / (len : ℚ)

/-- `string_similarity(a, b)`: ratio of the lower-cased, stripped
strings. -/
def string_similarity (a b : String) : ℚ :=
  ratioOf (stripChars (lowerChars a.data)) (stripChars (lowerChars b.data))

/-- `sum(len(word) for word in common_words)`. -/
def sumLens (ws : List String) : ℕ := (ws.map String.length).sum

/-- The boosted score `adjusted_similarity` that `find_best_match`
computes for one candidate: the edit similarity, plus
`0.5 * (shared token length sum) / len(course_name)` when the
candidate shares a token with the input. -/
def adjustedScore (course_name course : String) : ℚ :=
  let hc := has_common_words course_name course 3
  let sim := string_similarity course_name course
  if hc.1 then
    sim + (sumLens hc.2 : ℚ) / (course_name.length : ℚ) * (1/2)
  else sim

/-- The four tracking variables of the `find_best_match` loop. -/
structure MatchState where
  best_match : Option String
  best_similarity : ℚ
  best_common_words : List String
  match_method : String
deriving Repr, DecidableEq

/-- One iteration of the `for course in course_list` loop: the tracked
best is replaced exactly when the boosted score strictly improves. -/
def matchStep (course_name : String) (st : MatchState) (course : String) :
    MatchState :=
  let hc := has_common_words course_name course 3
  let similarity := string_similarity course_name course
  let adjusted :=
    if hc.1 then
      similarity + (sumLens hc.2 : ℚ) / (course_name.length : ℚ) * (1/2)
    else similarity
  if st.best_similarity < adjusted then
    ⟨some course, adjusted, hc.2, if hc.1 then "common_words" else "similarity"⟩
  else st

/-- The tracking loop of `find_best_match` over the whole list,
starting from `best_match=None, best_similarity=0, ...,
match_method="none"`. -/
def matchFold (course_name : String) (course_list : List String) : MatchState :=
  course_list.foldl (matchStep course_name) ⟨none, 0, [], "none"⟩

/-- `find_best_match(course_name, course_list, threshold=0.4)`: the
tracked best is returned only when its method is `"common_words"` and
its boosted score reaches the threshold; otherwise the fixed failure
tuple `(None, 0, "none", [])`. -/
def find_best_match (course_name : String) (course_list : List String)
    (threshold : ℚ := 2/5) : Option String × ℚ × String × List String :=
  let st := matchFold course_name course_list
  if st.match_method = "common_words" ∧ threshold ≤ st.best_similarity then
    (st.best_match, st.best_similarity, st.match_method, st.best_common_words)
  else (none, 0, "none", [])

/-! ### Derived predicates used to state the claims -/

/-- The exclusion condition on a single course record as the
specification states it: scale `"Not Included"`, or subject equal to
one of the three GPA-excluded categories, or course name literally
equal to a canonical name listed under one of those categories. -/
def excludedFromGPA (c : Course) : Bool :=
  c.scale.getD "AP" = "Not Included" ||
  NON_GPA_SUBJECTS.contains (c.subject.getD "") ||
  NON_GPA_SUBJECTS.any fun s => (gradReqCourses s).contains c.course

/-- The `(points × credits, credits)` contribution of a single course
record to the two accumulators of `calculate_gpa`: zero when the
record is excluded or when no grade band contains its score. -/
def courseContribution (c : Course) : ℚ × ℚ :=
  if excludedFromGPA c then (0, 0)
  else
    match GRADE_SCALE (c.scale.getD "AP") with
    | none => (0, 0)
    | some bands =>
      match findBand bands c.score with
      | none => (0, 0)
      | some points => (points * c.credits, c.credits)

/-- Componentwise sum of the per-record contributions of a scope. -/
def sumContrib (cs : List Course) : ℚ × ℚ :=
  ((cs.map fun c => (courseContribution c).1).sum,
   (cs.map fun c => (courseContribution c).2).sum)

/-- Number of grade bands of a scale containing a given score. -/
def bandCount (bands : List ((Int × Int) × ℚ)) (s : Int) : Nat :=
  (bands.filter fun b => decide (b.1.1 ≤ s ∧ s ≤ b.1.2)).length

/-! ### Concrete records used by witnesses and counterexamples -/

/-- A regular AP-scale course record. -/
def wMath : Course :=
  { course := "AP Calculus AB", score := 95, credits := 1,
    scale := some "AP", subject := some "Mathematics" }

/-- A physical-education record (GPA-excluded category). -/
def wPE : Course :=
  { course := "PE", score := 100, credits := 1,
    scale := some "AP", subject := some "Physical_Education" }

/-- A regular CNCC-scale course record. -/
def wEng : Course :=
  { course := "AP English Literature", score := 85, credits := 1,
    scale := some "CNCC", subject := some "English" }

/-- A record marked `"Not Included"`. -/
def wNI : Course :=
  { course := "Chinese", score := 98, credits := 1,
    scale := some "Not Included", subject := some "Chinese" }

/-- A small grades structure mixing included and excluded records. -/
def wGrades : Grades :=
  [("10", [("Fall",
    [("Mathematics", wMath), ("Physical_Education", wPE),
     ("English", wEng), ("Chinese", wNI)])])]

/-- A record whose `scale` field holds the unknown value `"XYZ"`. -/
def xyzCourse : Course :=
  { course := "Algebra", score := 90, credits := 1,
    scale := some "XYZ", subject := some "Mathematics" }

/-- A grades structure containing only `xyzCourse`. -/
def xyzGrades : Grades :=
  [("10", [("Fall", [("Mathematics", xyzCourse)])])]

/-- A record with in-range score and positive credits whose `scale`
field holds the unknown value `"Foo"`. -/
def fooCourse : Course :=
  { course := "Algebra", score := 90, credits := 1,
    scale := some "Foo", subject := some "Mathematics" }

/-- A grades structure containing only `fooCourse`. -/
def fooGrades : Grades :=
  [("10", [("Fall", [("Mathematics", fooCourse)])])]

/-- A record whose dict has no `scale` key at all. -/
def noScaleCourse : Course :=
  { course := "Algebra", score := 90, credits := 1,
    scale := none, subject := some "Mathematics" }

/-- A Chinese-History record. -/
def cssHist : Course :=
  { course := "Chinese History", score := 90, credits := 1,
    scale := some "CNCC", subject := some "Chinese_Social_Studies" }

/-- A Chinese-Geography record. -/
def cssGeo : Course :=
  { course := "Chinese Geography", score := 91, credits := 1,
    scale := some "CNCC", subject := some "Chinese_Social_Studies" }

/-- A grades structure taking two of the three Chinese social-studies
courses. -/
def cssGrades : Grades :=
  [("10", [("Fall", [("A", cssHist)]), ("Spring", [("B", cssGeo)])])]

/-- A grades structure whose only record is GPA-excluded. -/
def peGrades : Grades :=
  [("10", [("Fall", [("Physical_Education", wPE)])])]

/-! ## Theorems -/

/-- A successful association-list lookup finds an entry of the list. -/
theorem lookup_mem {β : Type} {k : String} {v : β} :
    ∀ {l : List (String × β)}, l.lookup k = some v → (k, v) ∈ l := by
  intro l
  induction l with
  | nil => intro h; simp [List.lookup] at h
  | cons hd tl ih =>
    obtain ⟨a, b⟩ := hd
    intro h
    rw [List.lookup] at h
    by_cases hk : k = a
    · subst hk
      simp at h
      subst h
      exact List.mem_cons_self _ _
    · have hb : (k == a) = false := by simp [hk]
      rw [hb] at h
      simp only [cond_false] at h
      exact List.mem_cons_of_mem _ (ih h)

/-- The loop flag of the exclusion check, as a proposition. -/
theorem subjectFound_iff (subj name : String) :
    subjectFound subj name = true ↔
      subj ∈ NON_GPA_SUBJECTS ∨ ∃ s ∈ NON_GPA_SUBJECTS, name ∈ gradReqCourses s := by
  simp only [subjectFound, List.any_eq_true, Bool.or_eq_true, decide_eq_true_eq]
  constructor
  · rintro ⟨s, hs, h | h⟩
    · exact Or.inl (h ▸ hs)
    · exact Or.inr ⟨s, hs, by simpa using h⟩
  · rintro (h | ⟨s, hs, h⟩)
    · exact ⟨subj, h, Or.inl rfl⟩
    · exact ⟨s, hs, Or.inr (by simpa using h)⟩

/-- The claim-level exclusion predicate, as a proposition. -/
theorem excludedFromGPA_iff (c : Course) :
    excludedFromGPA c = true ↔
      c.scale.getD "AP" = "Not Included" ∨ c.subject.getD "" ∈ NON_GPA_SUBJECTS ∨
        ∃ s ∈ NON_GPA_SUBJECTS, c.course ∈ gradReqCourses s := by
  simp only [excludedFromGPA, Bool.or_eq_true, decide_eq_true_eq, List.any_eq_true]
  constructor
  · rintro ((h | h) | h)
    · exact Or.inl h
    · exact Or.inr (Or.inl (by simpa using h))
    · obtain ⟨s, hs, h⟩ := h
      exact Or.inr (Or.inr ⟨s, hs, by simpa using h⟩)
  · rintro (h | h | ⟨s, hs, h⟩)
    · exact Or.inl (Or.inl h)
    · exact Or.inl (Or.inr (by simpa using h))
    · exact Or.inr ⟨s, hs, by simpa using h⟩

/-- An excluded record leaves the accumulators unchanged. -/
theorem processCourse_excluded (acc : ℚ × ℚ) (c : Course)
    (h : excludedFromGPA c = true) : processCourse acc c = .ok acc := by
  rcases (excludedFromGPA_iff c).1 h with hni | hsub | hcourse
  · simp [processCourse, hni]
  · have hsf : subjectFound (c.subject.getD "") c.course = true :=
      (subjectFound_iff _ _).2 (Or.inl hsub)
    by_cases hni : c.scale.getD "AP" = "Not Included"
    · simp [processCourse, hni]
    · simp [processCourse, hni, hsf]
  · have hsf : subjectFound (c.subject.getD "") c.course = true :=
      (subjectFound_iff _ _).2 (Or.inr hcourse)
    by_cases hni : c.scale.getD "AP" = "Not Included"
    · simp [processCourse, hni]
    · simp [processCourse, hni, hsf]

/-- A non-excluded record reaches the band lookup. -/
theorem processCourse_not_excluded (acc : ℚ × ℚ) (c : Course)
    (h : excludedFromGPA c = false) :
    processCourse acc c =
      match GRADE_SCALE (c.scale.getD "AP") with
      | none => .error (c.scale.getD "AP")
      | some bands =>
        match findBand bands c.score with
        | none => .ok acc
        | some points => .ok (acc.1 + points * c.credits, acc.2 + c.credits) := by
  have hnot : ¬ (excludedFromGPA c = true) := by simp [h]
  rw [excludedFromGPA_iff] at hnot
  push_neg at hnot
  obtain ⟨hni, hsub, hcourse⟩ := hnot
  have hsf : subjectFound (c.subject.getD "") c.course = false := by
    rw [← Bool.not_eq_true, subjectFound_iff]
    push_neg
    exact ⟨hsub, hcourse⟩
  simp [processCourse, hni, hsf]

/-- Componentwise unfolding of the contribution sums. -/
theorem sumContrib_cons (c : Course) (cs : List Course) :
    sumContrib (c :: cs) =
      ((courseContribution c).1 + (sumContrib cs).1,
       (courseContribution c).2 + (sumContrib cs).2) := by
  simp [sumContrib]

/-- The accumulation loop of calculate_gpa computes, for any starting
accumulator, the componentwise sum of the per-record contributions,
provided every non-excluded record has a known scale. -/
theorem gpaAccum_eq (cs : List Course) (acc : ℚ × ℚ)
    (h : ∀ c ∈ cs, excludedFromGPA c = false →
      (GRADE_SCALE (c.scale.getD "AP")).isSome = true) :
    gpaAccum cs acc = .ok (acc.1 + (sumContrib cs).1, acc.2 + (sumContrib cs).2) := by
  induction cs generalizing acc with
  | nil => simp [gpaAccum, sumContrib]
  | cons c rest ih =>
    have hrest : ∀ c ∈ rest, excludedFromGPA c = false →
        (GRADE_SCALE (c.scale.getD "AP")).isSome = true :=
      fun x hx => h x (List.mem_cons_of_mem _ hx)
    rw [sumContrib_cons]
    by_cases hx : excludedFromGPA c = true
    · rw [gpaAccum, processCourse_excluded acc c hx]
      dsimp only
      rw [ih acc hrest]
      simp [courseContribution, hx]
    · have hx' : excludedFromGPA c = false := by simpa using hx
      have hsome := h c (List.mem_cons_self c rest) hx'
      cases hsc : GRADE_SCALE (c.scale.getD "AP") with
      | none => rw [hsc] at hsome; simp at hsome
      | some bands =>
        rw [gpaAccum, processCourse_not_excluded acc c hx', hsc]
        dsimp only
        cases hb : findBand bands c.score with
        | none =>
          dsimp only
          rw [ih acc hrest]
          simp [courseContribution, hx', hsc, hb]
        | some points =>
          dsimp only
          rw [ih (acc.1 + points * c.credits, acc.2 + c.credits) hrest]
          simp only [courseContribution, hx', hsc, hb, Bool.false_eq_true,
            if_false, Except.ok.injEq, Prod.mk.injEq]
          constructor <;> ring

/-- Shared form of the aggregation result: on a scope that exists,
calculate_gpa is the guarded quotient of the per-record contribution
sums. -/
theorem calculate_gpa_scope_sum (grades : Grades) (sg ss : Option String)
    (cs : List Course)
    (hscope : scopeCourses grades (truthy sg) (truthy ss) = some cs)
    (hscale : ∀ c ∈ cs, excludedFromGPA c = false →
      (GRADE_SCALE (c.scale.getD "AP")).isSome = true) :
    calculate_gpa grades sg ss = .ok (finalize (sumContrib cs)) := by
  unfold calculate_gpa
  rw [hscope]
  dsimp only
  rw [gpaAccum_eq cs (0, 0) hscale]
  simp [Except.map]

/-- C1: for every course record in the selected scope, calculate_gpa
excludes the record from both the points sum and the credit sum
whenever its scale is "Not Included", or its subject equals one of the
three GPA-excluded categories, or its course name literally equals a
canonical course name listed under one of those categories; every
other record with a score inside a grade band contributes
points × credits to the points sum and credits to the credit sum: the
result is exactly the quotient of the per-record contribution sums
(with contribution zero exactly for the excluded records and for
records whose score lies in no band). -/
theorem calculate_gpa_exclusion (grades : Grades) (sg ss : Option String)
    (cs : List Course)
    (hscope : scopeCourses grades (truthy sg) (truthy ss) = some cs)
    (hscale : ∀ c ∈ cs, excludedFromGPA c = false →
      (GRADE_SCALE (c.scale.getD "AP")).isSome = true) :
    calculate_gpa grades sg ss = .ok (finalize (sumContrib cs)) :=
  calculate_gpa_scope_sum grades sg ss cs hscope hscale

/-- Witness for C1 at a concrete grades structure: the PE record and
the "Not Included" record contribute nothing, the two regular records
give (4 × 1 + 4 × 1) / (1 + 1) = 4. -/
theorem calculate_gpa_exclusion_witness :
    calculate_gpa wGrades Option.none Option.none =
      .ok (finalize (sumContrib (allCourses wGrades)))
    ∧ finalize (sumContrib (allCourses wGrades)) = 4 :=
  ⟨calculate_gpa_exclusion wGrades Option.none Option.none
      (allCourses wGrades) rfl (by decide),
   by norm_num +decide [finalize, sumContrib, allCourses, wGrades, yearCourses,
     semCourses, courseContribution, excludedFromGPA, GRADE_SCALE, findBand,
     GRADE_SCALE_AP, GRADE_SCALE_CNCC, wMath, wPE, wEng, wNI,
     NON_GPA_SUBJECTS, gradReqCourses, GRADUATION_REQUIREMENTS]⟩

/-- C6: calculate_gpa returns exactly 0 whenever no record of the
requested scope survives the exclusion rules: when the requested year
or term does not exist, when every record of the scope is excluded
(including the empty scope), and in general whenever the accumulated
credit-weight is zero, in which case the guarded division yields 0
rather than an arithmetic fault. -/
theorem calculate_gpa_zero_cases (grades : Grades) (sg ss : Option String) :
    (scopeCourses grades (truthy sg) (truthy ss) = none →
      calculate_gpa grades sg ss = .ok 0)
    ∧ (∀ cs, scopeCourses grades (truthy sg) (truthy ss) = some cs →
        (∀ c ∈ cs, excludedFromGPA c = true) →
        calculate_gpa grades sg ss = .ok 0)
    ∧ (∀ cs points, scopeCourses grades (truthy sg) (truthy ss) = some cs →
        gpaAccum cs (0, 0) = .ok (points, 0) →
        calculate_gpa grades sg ss = .ok 0) := by
  refine ⟨?_, ?_, ?_⟩
  · intro h
    unfold calculate_gpa
    rw [h]
  · intro cs hs hall
    have hscale : ∀ c ∈ cs, excludedFromGPA c = false →
        (GRADE_SCALE (c.scale.getD "AP")).isSome = true := by
      intro c hc hfalse
      rw [hall c hc] at hfalse
      simp at hfalse
    unfold calculate_gpa
    rw [hs]
    dsimp only
    rw [gpaAccum_eq cs (0, 0) hscale]
    have h1 : (sumContrib cs).1 = 0 := by
      apply List.sum_eq_zero
      intro x hx
      obtain ⟨c, hc, rfl⟩ := List.mem_map.1 hx
      simp [courseContribution, hall c hc]
    have h2 : (sumContrib cs).2 = 0 := by
      apply List.sum_eq_zero
      intro x hx
      obtain ⟨c, hc, rfl⟩ := List.mem_map.1 hx
      simp [courseContribution, hall c hc]
    simp [Except.map, h1, h2, finalize]
  · intro cs points hs hacc
    unfold calculate_gpa
    rw [hs]
    dsimp only
    rw [hacc]
    simp [Except.map, finalize]

/-- Witness for C6: a non-existent year gives 0, and a scope whose
only record is excluded gives 0. -/
theorem calculate_gpa_zero_cases_witness :
    calculate_gpa wGrades (some "11") Option.none = .ok 0
    ∧ calculate_gpa peGrades Option.none Option.none = .ok 0 :=
  ⟨(calculate_gpa_zero_cases wGrades (some "11") Option.none).1 rfl,
   (calculate_gpa_zero_cases peGrades Option.none Option.none).2.1
     (allCourses peGrades) rfl (by decide)⟩

/-- C7 counterexample: a record whose scale field holds the unknown
value "XYZ" does not make calculate_gpa fall back to AP and complete;
it raises a KeyError (modelled as the error result), so no GPA value
is returned at all. -/
theorem unknown_scale_counterexample :
    calculate_gpa xyzGrades Option.none Option.none = .error "XYZ"
    ∧ ∀ q : ℚ, calculate_gpa xyzGrades Option.none Option.none ≠ .ok q := by
  constructor
  · rfl
  · intro q h
    rw [show calculate_gpa xyzGrades Option.none Option.none = .error "XYZ" from rfl] at h
    exact Except.noConfusion h

/-- C7 amended: only a record whose dict is missing the scale key
falls back to AP (the default of course.get("scale", "AP")); a record
whose scale field holds a value that is neither "AP", "CNCC" nor
"Not Included" and that is not otherwise excluded makes the lookup
GRADE_SCALE[scale] raise a KeyError rather than fall back to AP. -/
theorem unknown_scale_amended :
    (∀ (acc : ℚ × ℚ) (c : Course), c.scale = Option.none →
      processCourse acc c = processCourse acc { c with scale := some "AP" })
    ∧ (∀ (acc : ℚ × ℚ) (c : Course) (s : String), c.scale = some s →
        s ≠ "AP" → s ≠ "CNCC" → s ≠ "Not Included" →
        subjectFound (c.subject.getD "") c.course = false →
        processCourse acc c = .error s) := by
  constructor
  · intro acc c h
    simp [processCourse, h]
  · intro acc c s hs h1 h2 h3 hsf
    simp [processCourse, hs, h3, hsf, GRADE_SCALE, h1, h2]

/-- Witness for C7 amended at concrete records. -/
theorem unknown_scale_amended_witness :
    processCourse (0, 0) noScaleCourse =
      processCourse (0, 0) { noScaleCourse with scale := some "AP" }
    ∧ processCourse (0, 0) xyzCourse = .error "XYZ" :=
  ⟨unknown_scale_amended.1 (0, 0) noScaleCourse rfl,
   unknown_scale_amended.2 (0, 0) xyzCourse "XYZ" rfl
     (by decide) (by decide) (by decide) (by decide)⟩

/-- C3: the range half of the claim is a code bug: parse_score does
not clamp its result to 0..100, although its own docstring (and the
specification) state the result is an integer in the range 0-100.  At
the numeric input 150 the function returns 150.  (The idempotence half
does hold: re-parsing an integer result returns it unchanged, as the
integer output of parse_score is never in the open interval (0,1).) -/
theorem parse_score_range_bug :
    parse_score (.num 150) = 150
    ∧ ¬ (parse_score (.num 150) ≤ 100)
    ∧ parse_score (.num ((parse_score (.num 150) : ℤ) : ℚ)) =
        parse_score (.num 150) := by
  have h : parse_score (.num 150) = 150 := by
    norm_num [parse_score, round_score, roundHalfEven]
  refine ⟨h, ?_, ?_⟩
  · rw [h]
    decide
  · rw [h]
    norm_num [parse_score, round_score, roundHalfEven]

/-- C9: for each grading scale (AP and CNCC), the score bands of
GRADE_SCALE partition the integers 0..100: every integer score in
[0,100] lies in exactly one (low, high) band, and the band lookup
always succeeds, resolving to exactly one points value. -/
theorem grade_scale_partition (s : Int) (h0 : 0 ≤ s) (h1 : s ≤ 100) :
    (bandCount GRADE_SCALE_AP s = 1 ∧ bandCount GRADE_SCALE_CNCC s = 1)
    ∧ (findBand GRADE_SCALE_AP s).isSome = true
    ∧ (findBand GRADE_SCALE_CNCC s).isSome = true := by
  have key : ∀ n : ℕ, n < 101 →
      (bandCount GRADE_SCALE_AP (n : Int) = 1 ∧
       bandCount GRADE_SCALE_CNCC (n : Int) = 1)
      ∧ (findBand GRADE_SCALE_AP (n : Int)).isSome = true
      ∧ (findBand GRADE_SCALE_CNCC (n : Int)).isSome = true := by decide
  have hs : s = ((s.toNat : ℕ) : Int) := (Int.toNat_of_nonneg h0).symm
  have hlt : s.toNat < 101 := by omega
  rw [hs]
  exact key s.toNat hlt

/-- Witness for C9 at the concrete score 85 (AP band 80-89, CNCC band
85-96). -/
theorem grade_scale_partition_witness :
    (0 : Int) ≤ 85 ∧ (85 : Int) ≤ 100 ∧
      (bandCount GRADE_SCALE_AP 85 = 1 ∧ bandCount GRADE_SCALE_CNCC 85 = 1) :=
  ⟨by decide, by decide, (grade_scale_partition 85 (by decide) (by decide)).1⟩

/-- A successful band lookup returns the points of one of the bands. -/
theorem findBand_mem : ∀ (bands : List ((Int × Int) × ℚ)) (s : Int) (p : ℚ),
    findBand bands s = some p → ∃ b ∈ bands, b.2 = p := by
  intro bands
  induction bands with
  | nil => intro s p h; simp [findBand] at h
  | cons hd tl ih =>
    intro s p h
    obtain ⟨⟨low, high⟩, pts⟩ := hd
    rw [findBand] at h
    by_cases hc : low ≤ s ∧ s ≤ high
    · rw [if_pos hc] at h
      injection h with h
      exact ⟨((low, high), pts), List.mem_cons_self _ _, h⟩
    · rw [if_neg hc] at h
      obtain ⟨b, hb, he⟩ := ih s p h
      exact ⟨b, List.mem_cons_of_mem _ hb, he⟩

/-- Every points value of either scale lies in [0, 4.3]. -/
theorem grade_points_range :
    (∀ b ∈ GRADE_SCALE_AP, 0 ≤ b.2 ∧ b.2 ≤ 43/10)
    ∧ (∀ b ∈ GRADE_SCALE_CNCC, 0 ≤ b.2 ∧ b.2 ≤ 43/10) := by
  constructor <;>
    · intro b hb
      simp only [GRADE_SCALE_AP, GRADE_SCALE_CNCC, List.mem_cons,
        List.not_mem_nil, or_false] at hb
      rcases hb with rfl | rfl | rfl | rfl | rfl | rfl <;> norm_num

/-- Records of a selected scope are records of the grades structure. -/
theorem scopeCourses_subset (g : Grades) (sg ss : Option String)
    (cs : List Course) (h : scopeCourses g sg ss = some cs) :
    ∀ c ∈ cs, c ∈ allCourses g := by
  intro c hc
  cases sg with
  | none =>
    simp only [scopeCourses, Option.some.injEq] at h
    subst h
    exact hc
  | some y =>
    cases ss with
    | none =>
      simp only [scopeCourses] at h
      cases hl : g.lookup y with
      | none => rw [hl] at h; simp at h
      | some yd =>
        rw [hl] at h
        simp only [Option.some.injEq] at h
        subst h
        exact List.mem_flatMap.2 ⟨(y, yd), lookup_mem hl, hc⟩
    | some s' =>
      simp only [scopeCourses] at h
      cases hl : g.lookup y with
      | none => rw [hl] at h; simp at h
      | some yd =>
        rw [hl] at h
        dsimp only at h
        cases hl2 : yd.lookup s' with
        | none => rw [hl2] at h; simp at h
        | some sd =>
          rw [hl2] at h
          simp only [Option.some.injEq] at h
          subst h
          refine List.mem_flatMap.2 ⟨(y, yd), lookup_mem hl, ?_⟩
          exact List.mem_flatMap.2 ⟨(s', sd), lookup_mem hl2, hc⟩

/-- With positive credit-weights, the contribution sums satisfy
0 ≤ credits and 0 ≤ points ≤ 4.3 × credits. -/
theorem sumContrib_bounds (cs : List Course)
    (hcr : ∀ c ∈ cs, 0 < c.credits) :
    0 ≤ (sumContrib cs).2 ∧ 0 ≤ (sumContrib cs).1 ∧
      (sumContrib cs).1 ≤ 43/10 * (sumContrib cs).2 := by
  induction cs with
  | nil =>
    simp [sumContrib]
  | cons c rest ih =>
    obtain ⟨h2, h1, h12⟩ := ih fun x hx => hcr x (List.mem_cons_of_mem _ hx)
    have hc : 0 ≤ (courseContribution c).2 ∧ 0 ≤ (courseContribution c).1 ∧
        (courseContribution c).1 ≤ 43/10 * (courseContribution c).2 := by
      unfold courseContribution
      split
      · norm_num
      · split
        · norm_num
        · rename_i bands hbands
          split
          · norm_num
          · rename_i points hfb
            have hcr0 : 0 < c.credits := hcr c (List.mem_cons_self _ _)
            have hp : 0 ≤ points ∧ points ≤ 43/10 := by
              obtain ⟨b, hb, he⟩ := findBand_mem bands c.score points hfb
              unfold GRADE_SCALE at hbands
              split at hbands
              · injection hbands with hbands
                subst hbands
                exact he ▸ grade_points_range.1 b hb
              · split at hbands
                · injection hbands with hbands
                  subst hbands
                  exact he ▸ grade_points_range.2 b hb
                · exact absurd hbands (by simp)
            refine ⟨le_of_lt hcr0, mul_nonneg hp.1 (le_of_lt hcr0), ?_⟩
            exact mul_le_mul_of_nonneg_right hp.2 (le_of_lt hcr0)
    obtain ⟨g2, g1, g12⟩ := hc
    rw [sumContrib_cons]
    refine ⟨add_nonneg g2 h2, add_nonneg g1 h1, ?_⟩
    calc (courseContribution c).1 + (sumContrib rest).1 ≤
        43/10 * (courseContribution c).2 + 43/10 * (sumContrib rest).2 :=
          add_le_add g12 h12
      _ = 43/10 * ((courseContribution c).2 + (sumContrib rest).2) := by ring

/-- The guarded quotient of bounded sums lies in [0, 4.3]. -/
theorem finalize_bounds (p : ℚ × ℚ) (h2 : 0 ≤ p.2) (h1 : 0 ≤ p.1)
    (h12 : p.1 ≤ 43/10 * p.2) : 0 ≤ finalize p ∧ finalize p ≤ 43/10 := by
  obtain ⟨a, b⟩ := p
  simp only at h1 h2 h12
  have hfe : finalize (a, b) = if b = 0 then 0 else a / b := rfl
  rw [hfe]
  by_cases hb : b = 0
  · rw [if_pos hb]
    norm_num
  · rw [if_neg hb]
    have hbpos : 0 < b := lt_of_le_of_ne h2 (Ne.symm hb)
    refine ⟨div_nonneg h1 h2, ?_⟩
    rw [div_le_iff₀ hbpos]
    linarith

/-- C10 counterexample: a grades structure whose only record has an
in-range score and positive credits but an unknown scale value makes
calculate_gpa raise a KeyError instead of returning a value in
[0, 4.3]. -/
theorem gpa_range_counterexample :
    (∀ c ∈ allCourses fooGrades, 0 ≤ c.score ∧ c.score ≤ 100 ∧ 0 < c.credits)
    ∧ calculate_gpa fooGrades Option.none Option.none = .error "Foo"
    ∧ ∀ q : ℚ, calculate_gpa fooGrades Option.none Option.none ≠ .ok q := by
  refine ⟨?_, rfl, ?_⟩
  · intro c hc
    have hc' : c = fooCourse := by
      simpa [allCourses, fooGrades, yearCourses, semCourses] using hc
    subst hc'
    refine ⟨by norm_num [fooCourse], by norm_num [fooCourse], ?_⟩
    norm_num [fooCourse]
  · intro q h
    rw [show calculate_gpa fooGrades Option.none Option.none = .error "Foo"
      from rfl] at h
    exact Except.noConfusion h

/-- C10 amended: for every grades structure whose course records all
have integer scores in [0,100] and positive credits, and whose
non-excluded records all carry a known scale (so that the band lookup
cannot raise), calculate_gpa returns a value in [0, 4.3] for every
scope. -/
theorem gpa_range_amended (grades : Grades) (sg ss : Option String)
    (hs : ∀ c ∈ allCourses grades, 0 ≤ c.score ∧ c.score ≤ 100 ∧ 0 < c.credits)
    (hk : ∀ c ∈ allCourses grades, excludedFromGPA c = false →
      (GRADE_SCALE (c.scale.getD "AP")).isSome = true) :
    ∃ q, calculate_gpa grades sg ss = .ok q ∧ 0 ≤ q ∧ q ≤ 43/10 := by
  cases hsc : scopeCourses grades (truthy sg) (truthy ss) with
  | none =>
    refine ⟨0, ?_, le_refl 0, by norm_num⟩
    unfold calculate_gpa
    rw [hsc]
  | some cs =>
    have hsub := scopeCourses_subset grades (truthy sg) (truthy ss) cs hsc
    have hval := calculate_gpa_scope_sum grades sg ss cs hsc
      fun c hc => hk c (hsub c hc)
    have hb := sumContrib_bounds cs fun c hc => (hs c (hsub c hc)).2.2
    have hf := finalize_bounds (sumContrib cs) hb.1 hb.2.1 hb.2.2
    exact ⟨finalize (sumContrib cs), hval, hf.1, hf.2⟩

/-- Witness for C10 amended at a concrete grades structure. -/
theorem gpa_range_amended_witness :
    ∃ q, calculate_gpa wGrades Option.none Option.none = .ok q ∧
      0 ≤ q ∧ q ≤ 43/10 :=
  gpa_range_amended wGrades Option.none Option.none
    (by
      intro c hc
      simp only [allCourses, wGrades, yearCourses, semCourses, List.flatMap_cons,
        List.map_cons, List.map_nil, List.flatMap_nil, List.append_nil,
        List.mem_cons, List.not_mem_nil, or_false] at hc
      rcases hc with rfl | rfl | rfl | rfl <;>
        refine ⟨by norm_num [wMath, wPE, wEng, wNI],
          by norm_num [wMath, wPE, wEng, wNI],
          by norm_num [wMath, wPE, wEng, wNI]⟩)
    (by decide)

/-- Membership in the set-add of the taken-courses set. -/
theorem mem_addTakenCourse (l : List String) (n c : String) :
    c ∈ addTakenCourse l n ↔ c ∈ l ∨ c = n := by
  unfold addTakenCourse
  by_cases h : n ∈ l
  · rw [if_pos h]
    constructor
    · exact Or.inl
    · rintro (hc | rfl)
      · exact hc
      · exact h
  · rw [if_neg h]
    simp

/-- Only a course name whose first matching category is
Chinese_Social_Studies changes the taken-courses set. -/
theorem recordCourse_takenCourses (r : Requirements) (n : String) :
    (recordCourse r n).takenCourses =
      if firstMatchingSubject n = some "Chinese_Social_Studies" then
        addTakenCourse r.takenCourses n
      else r.takenCourses := by
  unfold recordCourse
  cases h : firstMatchingSubject n with
  | none => simp [h]
  | some subj =>
    by_cases hs : subj = "Chinese_Social_Studies"
    · subst hs
      simp [h]
    · simp [h, hs]

/-- Membership in the taken-courses set after scanning a name list, for
a course name recognized as Chinese_Social_Studies. -/
theorem foldl_takenCourses (c : String)
    (hc : firstMatchingSubject c = some "Chinese_Social_Studies") :
    ∀ (names : List String) (r₀ : Requirements),
      c ∈ (names.foldl recordCourse r₀).takenCourses ↔
        c ∈ r₀.takenCourses ∨ c ∈ names := by
  intro names
  induction names with
  | nil => intro r₀; simp
  | cons n rest ih =>
    intro r₀
    rw [List.foldl_cons, ih (recordCourse r₀ n), recordCourse_takenCourses]
    by_cases hn : firstMatchingSubject n = some "Chinese_Social_Studies"
    · rw [if_pos hn, mem_addTakenCourse]
      simp only [List.mem_cons]
      tauto
    · rw [if_neg hn]
      have hcn : c ≠ n := fun he => hn (he ▸ hc)
      simp only [List.mem_cons]
      constructor
      · rintro (h | h)
        · exact Or.inl h
        · exact Or.inr (Or.inr h)
      · rintro (h | h | h)
        · exact Or.inl h
        · exact absurd h hcn
        · exact Or.inr h

/-- The rebuilt requirement state records a Chinese_Social_Studies
course name exactly when the name occurs among the scanned names. -/
theorem takenCourses_iff (names : List String) (c : String)
    (hc : firstMatchingSubject c = some "Chinese_Social_Studies") :
    c ∈ (updateRequirements names).takenCourses ↔ c ∈ names := by
  unfold updateRequirements
  rw [foldl_takenCourses c hc names initialRequirements]
  simp [initialRequirements]

/-- C5: for every student record (grades structure, rescanned exactly
as update_student_data rescans it), the Chinese_Social_Studies
requirement is reported satisfied — its deficiency entry in
check_graduation's result is absent — if and only if all three named
courses (Chinese History, Chinese Geography, Chinese Politics) appear
among the student's taken course names, regardless of any other
courses taken; and when deficient, the single deficiency entry
enumerates exactly the missing courses, and appears in
check_graduation's result. -/
theorem css_requirement_iff (g : Grades) :
    (subjectDeficiency (updateRequirements (studentCourseNames g))
        "Chinese_Social_Studies"
        ⟨3, ["Chinese History", "Chinese Geography", "Chinese Politics"]⟩ = []
      ↔ ("Chinese History" ∈ studentCourseNames g ∧
          "Chinese Geography" ∈ studentCourseNames g ∧
          "Chinese Politics" ∈ studentCourseNames g))
    ∧ (∀ m ∈ subjectDeficiency (updateRequirements (studentCourseNames g))
          "Chinese_Social_Studies"
          ⟨3, ["Chinese History", "Chinese Geography", "Chinese Politics"]⟩,
        m = "Chinese Social Studies: Missing required courses - " ++
            joinComma ((["Chinese History", "Chinese Geography",
              "Chinese Politics"]).filter
                fun c => !((studentCourseNames g).contains c))
        ∧ m ∈ check_graduation (updateRequirements (studentCourseNames g))) := by
  have hfilter :
      (["Chinese History", "Chinese Geography", "Chinese Politics"]).filter
          (fun c => !((updateRequirements
            (studentCourseNames g)).takenCourses.contains c)) =
        (["Chinese History", "Chinese Geography", "Chinese Politics"]).filter
          (fun c => !((studentCourseNames g).contains c)) := by
    apply List.filter_congr
    intro c hcmem
    have hfm : firstMatchingSubject c = some "Chinese_Social_Studies" := by
      simp only [List.mem_cons, List.not_mem_nil, or_false] at hcmem
      rcases hcmem with rfl | rfl | rfl <;> decide
    have hiff := takenCourses_iff (studentCourseNames g) c hfm
    rw [show ((updateRequirements
          (studentCourseNames g)).takenCourses.contains c) =
        decide (c ∈ (updateRequirements (studentCourseNames g)).takenCourses)
        from List.elem_eq_mem _ _,
      show ((studentCourseNames g).contains c) =
        decide (c ∈ studentCourseNames g) from List.elem_eq_mem _ _]
    simp [hiff]
  have hsd : subjectDeficiency (updateRequirements (studentCourseNames g))
      "Chinese_Social_Studies"
      ⟨3, ["Chinese History", "Chinese Geography", "Chinese Politics"]⟩ =
      (if ((["Chinese History", "Chinese Geography",
            "Chinese Politics"]).filter
              (fun c => !((studentCourseNames g).contains c))).isEmpty then []
       else ["Chinese Social Studies: Missing required courses - " ++
          joinComma ((["Chinese History", "Chinese Geography",
            "Chinese Politics"]).filter
              fun c => !((studentCourseNames g).contains c))]) := by
    simp only [subjectDeficiency]
    rw [if_pos trivial, hfilter,
      show replaceUnderscores "Chinese_Social_Studies" =
        "Chinese Social Studies" from by decide]
    rfl
  have hempty : (((["Chinese History", "Chinese Geography",
      "Chinese Politics"]).filter
        (fun c => !((studentCourseNames g).contains c))) = []) ↔
      ("Chinese History" ∈ studentCourseNames g ∧
       "Chinese Geography" ∈ studentCourseNames g ∧
       "Chinese Politics" ∈ studentCourseNames g) := by
    rw [List.filter_eq_nil_iff]
    simp [List.elem_eq_mem]
  constructor
  · rw [hsd]
    by_cases he : ((["Chinese History", "Chinese Geography",
        "Chinese Politics"]).filter
          (fun c => !((studentCourseNames g).contains c))).isEmpty
    · rw [if_pos he]
      rw [List.isEmpty_iff] at he
      simp only [true_iff]
      exact hempty.1 he
    · rw [if_neg he]
      rw [List.isEmpty_iff] at he
      constructor
      · intro h
        exact absurd h (List.cons_ne_nil _ _)
      · intro hmem
        exact (he (hempty.2 hmem)).elim
  · intro m hm
    rw [hsd] at hm
    by_cases he : ((["Chinese History", "Chinese Geography",
        "Chinese Politics"]).filter
          (fun c => !((studentCourseNames g).contains c))).isEmpty
    · rw [if_pos he] at hm
      exact absurd hm (List.not_mem_nil m)
    · rw [if_neg he] at hm
      simp only [List.mem_cons, List.not_mem_nil, or_false] at hm
      subst hm
      refine ⟨rfl, ?_⟩
      unfold check_graduation
      refine List.mem_flatMap.2 ⟨("Chinese_Social_Studies",
        ⟨3, ["Chinese History", "Chinese Geography", "Chinese Politics"]⟩),
        by decide, ?_⟩
      rw [hsd, if_neg he]
      exact List.mem_cons_self _ _

/-- Witness for C5: with Chinese History and Chinese Geography taken
but Chinese Politics missing, the deficiency entry names exactly
Chinese Politics and appears in the graduation report. -/
theorem css_requirement_iff_witness :
    "Chinese Social Studies: Missing required courses - Chinese Politics" ∈
      check_graduation (updateRequirements (studentCourseNames cssGrades)) :=
  ((css_requirement_iff cssGrades).2
    "Chinese Social Studies: Missing required courses - Chinese Politics"
    (by decide)).2

/-- Unfolding equation of one loop iteration: the boosted score
computed inline by the loop is adjustedScore. -/
theorem matchStep_eq (n : String) (st : MatchState) (c : String) :
    matchStep n st c =
      if st.best_similarity < adjustedScore n c then
        ⟨some c, adjustedScore n c, (has_common_words n c 3).2,
          if (has_common_words n c 3).1 then "common_words" else "similarity"⟩
      else st := rfl

/-- Unfolding equation of the acceptance gate. -/
theorem find_best_match_eq (n : String) (l : List String) (t : ℚ) :
    find_best_match n l t =
      if (matchFold n l).match_method = "common_words" ∧
          t ≤ (matchFold n l).best_similarity then
        ((matchFold n l).best_match, (matchFold n l).best_similarity,
          (matchFold n l).match_method, (matchFold n l).best_common_words)
      else (none, 0, "none", []) := rfl

/-- The tracking fold either keeps the start state (nothing strictly
improved on it) or ends on a candidate of the list carrying its own
boosted score, shared words and method, strictly above the start score
and maximal over the list. -/
theorem foldl_matchStep_spec (n : String) :
    ∀ (l : List String) (st : MatchState),
      (l.foldl (matchStep n) st = st ∧
        ∀ c ∈ l, adjustedScore n c ≤ st.best_similarity)
      ∨ (∃ m ∈ l, l.foldl (matchStep n) st =
          ⟨some m, adjustedScore n m, (has_common_words n m 3).2,
            if (has_common_words n m 3).1 then "common_words" else "similarity"⟩
          ∧ st.best_similarity < adjustedScore n m
          ∧ ∀ c ∈ l, adjustedScore n c ≤ adjustedScore n m) := by
  intro l
  induction l with
  | nil => intro st; left; exact ⟨rfl, by simp⟩
  | cons c rest ih =>
    intro st
    rw [List.foldl_cons]
    by_cases hup : st.best_similarity < adjustedScore n c
    · rw [matchStep_eq, if_pos hup]
      rcases ih ⟨some c, adjustedScore n c, (has_common_words n c 3).2,
          if (has_common_words n c 3).1 then "common_words" else "similarity"⟩
        with ⟨heq, hle⟩ | ⟨m, hm, heq, hlt, hle⟩
      · right
        refine ⟨c, List.mem_cons_self _ _, heq, hup, ?_⟩
        intro x hx
        rcases List.mem_cons.1 hx with rfl | hx
        · exact le_refl _
        · exact hle x hx
      · right
        refine ⟨m, List.mem_cons_of_mem _ hm, heq, lt_trans hup hlt, ?_⟩
        intro x hx
        rcases List.mem_cons.1 hx with rfl | hx
        · exact le_of_lt hlt
        · exact hle x hx
    · rw [matchStep_eq, if_neg hup]
      rcases ih st with ⟨heq, hle⟩ | ⟨m, hm, heq, hlt, hle⟩
      · left
        refine ⟨heq, ?_⟩
        intro x hx
        rcases List.mem_cons.1 hx with rfl | hx
        · exact le_of_not_lt hup
        · exact hle x hx
      · right
        refine ⟨m, List.mem_cons_of_mem _ hm, heq, hlt, ?_⟩
        intro x hx
        rcases List.mem_cons.1 hx with rfl | hx
        · exact le_trans (le_of_not_lt hup) (le_of_lt hlt)
        · exact hle x hx

/-- The tracked state of the whole loop: either no update ever fired
(best is None, score 0, method "none") or the tracked best is a
candidate of the list with its boosted score, maximal over the list. -/
theorem matchFold_cases (n : String) (l : List String) :
    (matchFold n l = ⟨none, 0, [], "none"⟩ ∧
      ∀ c ∈ l, adjustedScore n c ≤ 0)
    ∨ (∃ m ∈ l, matchFold n l =
        ⟨some m, adjustedScore n m, (has_common_words n m 3).2,
          if (has_common_words n m 3).1 then "common_words" else "similarity"⟩
        ∧ 0 < adjustedScore n m
        ∧ ∀ c ∈ l, adjustedScore n c ≤ adjustedScore n m) := by
  rcases foldl_matchStep_spec n l ⟨none, 0, [], "none"⟩
    with ⟨heq, hle⟩ | ⟨m, hm, heq, hlt, hle⟩
  · left
    exact ⟨heq, hle⟩
  · right
    exact ⟨m, hm, heq, hlt, hle⟩

/-- C2: for every input string, canonical list and threshold,
find_best_match returns an accepted match (non-None first component)
if and only if the tracked highest-boosted-score candidate (ties keep
the first encountered; it is maximal over the whole list by the second
conjunct) has a non-empty intersection of length-≥3 alphanumeric
tokens with the input and its boosted score reaches the threshold; in
particular a returned match always shares a token with the input, so a
candidate with empty token intersection is never returned regardless
of its edit-similarity score. -/
theorem find_best_match_acceptance (n : String) (l : List String) (t : ℚ) :
    ((find_best_match n l t).1.isSome = true ↔
      ∃ m, (matchFold n l).best_match = some m ∧
        (has_common_words n m 3).1 = true ∧ t ≤ adjustedScore n m)
    ∧ (∀ m, (matchFold n l).best_match = some m →
        m ∈ l ∧ (matchFold n l).best_similarity = adjustedScore n m ∧
        ∀ c ∈ l, adjustedScore n c ≤ adjustedScore n m)
    ∧ (∀ m, (find_best_match n l t).1 = some m →
        (matchFold n l).best_match = some m ∧
        (has_common_words n m 3).1 = true ∧ t ≤ adjustedScore n m) := by
  rcases matchFold_cases n l with ⟨heq, _⟩ | ⟨m, hm, heq, _, hle⟩
  · have hfb : find_best_match n l t = (none, 0, "none", []) := by
      rw [find_best_match_eq, if_neg]
      rintro ⟨h1, _⟩
      rw [heq] at h1
      exact absurd h1 (by decide)
    refine ⟨?_, ?_, ?_⟩
    · rw [hfb]
      simp only [Option.isSome_none, Bool.false_eq_true, false_iff]
      rintro ⟨x, hx, _⟩
      rw [heq] at hx
      exact Option.noConfusion hx
    · intro x hx
      rw [heq] at hx
      exact absurd hx (Option.noConfusion)
    · intro x hx
      rw [hfb] at hx
      exact absurd hx (Option.noConfusion)
  · cases hc : (has_common_words n m 3).1 with
    | false =>
      have hfb : find_best_match n l t = (none, 0, "none", []) := by
        rw [find_best_match_eq, if_neg]
        rintro ⟨h1, _⟩
        rw [heq] at h1
        simp only [hc, if_false, Bool.false_eq_true] at h1
        exact absurd h1 (by decide)
      refine ⟨?_, ?_, ?_⟩
      · rw [hfb]
        simp only [Option.isSome_none, Bool.false_eq_true, false_iff]
        rintro ⟨x, hx, hxc, _⟩
        rw [heq] at hx
        injection hx with hx
        subst hx
        rw [hc] at hxc
        exact Bool.noConfusion hxc
      · intro x hx
        rw [heq] at hx
        injection hx with hx
        subst hx
        exact ⟨hm, by rw [heq], hle⟩
      · intro x hx
        rw [hfb] at hx
        exact absurd hx (Option.noConfusion)
    | true =>
      by_cases ht : t ≤ adjustedScore n m
      · have hfb : find_best_match n l t =
            (some m, adjustedScore n m, "common_words",
              (has_common_words n m 3).2) := by
          rw [find_best_match_eq, if_pos]
          · rw [heq]
            simp [hc]
          · rw [heq]
            simp [hc, ht]
        refine ⟨?_, ?_, ?_⟩
        · rw [hfb]
          simp only [Option.isSome_some, true_iff]
          exact ⟨m, by rw [heq], hc, ht⟩
        · intro x hx
          rw [heq] at hx
          injection hx with hx
          subst hx
          exact ⟨hm, by rw [heq], hle⟩
        · intro x hx
          rw [hfb] at hx
          injection hx with hx
          subst hx
          exact ⟨by rw [heq], hc, ht⟩
      · have hfb : find_best_match n l t = (none, 0, "none", []) := by
          rw [find_best_match_eq, if_neg]
          rintro ⟨_, h2⟩
          rw [heq] at h2
          exact ht h2
        refine ⟨?_, ?_, ?_⟩
        · rw [hfb]
          simp only [Option.isSome_none, Bool.false_eq_true, false_iff]
          rintro ⟨x, hx, _, hxt⟩
          rw [heq] at hx
          injection hx with hx
          subst hx
          exact ht hxt
        · intro x hx
          rw [heq] at hx
          injection hx with hx
          subst hx
          exact ⟨hm, by rw [heq], hle⟩
        · intro x hx
          rw [hfb] at hx
          exact absurd hx (Option.noConfusion)

/-- Evaluation form of string_similarity from the integer pieces (the
match total and the two lengths), which are kernel-computable. -/
theorem string_similarity_eval (a b : String) (m la lb : ℕ)
    (hm : matchTotal (stripChars (lowerChars a.data))
        (stripChars (lowerChars b.data))
        (bIsJunk (stripChars (lowerChars b.data)))
        ((stripChars (lowerChars a.data)).length + 1) 0
        (stripChars (lowerChars a.data)).length 0
        (stripChars (lowerChars b.data)).length = m)
    (ha : (stripChars (lowerChars a.data)).length = la)
    (hb : (stripChars (lowerChars b.data)).length = lb) :
    string_similarity a b =
      if la + lb = 0 then 1 else 2 * (m : ℚ) / ((la : ℚ) + (lb : ℚ)) := by
  simp only [string_similarity, ratioOf]
  rw [hm, ha, hb, Nat.cast_add]

/-- Witness for C2 at the concrete resolution of "Biology Honors"
against ["Biology"]: the match is accepted, shares the token
"biology", and its boosted score 11/12 = 2/3 + 0.5 × 7/14 reaches the
threshold. -/
theorem find_best_match_acceptance_witness :
    (find_best_match "Biology Honors" ["Biology"] (2/5)).1 = some "Biology"
    ∧ (has_common_words "Biology Honors" "Biology" 3).1 = true
    ∧ (2/5 : ℚ) ≤ adjustedScore "Biology Honors" "Biology" := by
  have hsim : string_similarity "Biology Honors" "Biology" = 2/3 := by
    rw [string_similarity_eval "Biology Honors" "Biology" 7 14 7
      (by decide) (by decide) (by decide)]
    norm_num
  have hadj : adjustedScore "Biology Honors" "Biology" = 11/12 := by
    simp only [adjustedScore]
    rw [show has_common_words "Biology Honors" "Biology" 3 = (true, ["biology"])
      from by decide]
    dsimp only
    rw [hsim, show sumLens ["biology"] = 7 from by decide,
      show ("Biology Honors".length) = 14 from by decide]
    norm_num
  have hmf : matchFold "Biology Honors" ["Biology"] =
      ⟨some "Biology", 11/12, ["biology"], "common_words"⟩ := by
    unfold matchFold
    rw [List.foldl_cons, List.foldl_nil, matchStep_eq, hadj]
    rw [if_pos (by norm_num)]
    rw [show has_common_words "Biology Honors" "Biology" 3 = (true, ["biology"])
      from by decide]
    rfl
  have hsome : (find_best_match "Biology Honors" ["Biology"] (2/5)).1 =
      some "Biology" := by
    rw [find_best_match_eq, hmf]
    rw [if_pos ⟨rfl, by norm_num⟩]
  obtain ⟨-, h2, h3⟩ :=
    (find_best_match_acceptance "Biology Honors" ["Biology"] (2/5)).2.2
      "Biology" hsome
  exact ⟨hsome, h2, h3⟩

/-- With autojunk disengaged (the second sequence is shorter than 200
characters), no character is junk. -/
theorem bIsJunk_small (b : List Char) (h : b.length < 200) (c : Char) :
    bIsJunk b c = false := by
  unfold bIsJunk
  simp [show ¬ (200 ≤ b.length) from by omega]

/-- A match run never extends past the end of the first range. -/
theorem matchLen_le (a b : List Char) (junk : Char → Bool) :
    ∀ (fuel ahi bhi i j : ℕ), matchLen a b junk fuel ahi bhi i j ≤ ahi - i := by
  intro fuel
  induction fuel with
  | zero => intro ahi bhi i j; simp [matchLen]
  | succ f ih =>
    intro ahi bhi i j
    simp only [matchLen]
    split
    · split
      · split
        · have := ih ahi bhi (i + 1) (j + 1)
          omega
        · omega
      · omega
    · omega

/-- On two copies of the same junk-free sequence, the match run from
any diagonal position reaches the end. -/
theorem matchLen_self (l : List Char) (junk : Char → Bool)
    (hj : ∀ c, junk c = false) :
    ∀ (f i : ℕ), l.length - i ≤ f →
      matchLen l l junk f l.length l.length i i = l.length - i := by
  intro f
  induction f with
  | zero =>
    intro i h
    simp only [matchLen]
    omega
  | succ f ih =>
    intro i h
    by_cases hi : i < l.length
    · have ha : l[i]? = some l[i] := List.getElem?_eq_getElem hi
      simp only [matchLen]
      rw [if_pos ⟨hi, hi⟩, ha]
      dsimp only
      rw [if_pos ⟨rfl, by simp [hj]⟩]
      rw [ih (i + 1) (by omega)]
      omega
    · simp only [matchLen]
      rw [if_neg fun hc => hi hc.1]
      omega

/-- The strict-improvement fold keeps its state when nothing exceeds
the current best size. -/
theorem foldl_best_stays (st : ℕ × ℕ × ℕ) :
    ∀ (cands : List (ℕ × ℕ × ℕ)), (∀ c ∈ cands, c.2.2 ≤ st.2.2) →
      cands.foldl (fun best c => if best.2.2 < c.2.2 then c else best) st = st := by
  intro cands
  induction cands with
  | nil => intro _; rfl
  | cons c rest ih =>
    intro h
    rw [List.foldl_cons, if_neg (not_lt.2 (h c (List.mem_cons_self _ _)))]
    exact ih fun x hx => h x (List.mem_cons_of_mem _ hx)

/-- The backward extension loop stops immediately when its guard
fails. -/
theorem extendBack_guard (a b : List Char) (junk : Char → Bool)
    (alo blo : ℕ) (w : Bool) :
    ∀ (fuel bi bj bk : ℕ), ¬(alo < bi ∧ blo < bj) →
      extendBack a b junk alo blo w fuel bi bj bk = (bi, bj, bk) := by
  intro fuel bi bj bk h
  cases fuel with
  | zero => rfl
  | succ f =>
    simp only [extendBack]
    rw [if_neg h]

/-- The forward extension loop stops immediately when its guard
fails. -/
theorem extendFwd_guard (a b : List Char) (junk : Char → Bool)
    (ahi bhi : ℕ) (w : Bool) :
    ∀ (fuel bi bj bk : ℕ), ¬(bi + bk < ahi ∧ bj + bk < bhi) →
      extendFwd a b junk ahi bhi w fuel bi bj bk = (bi, bj, bk) := by
  intro fuel bi bj bk h
  cases fuel with
  | zero => rfl
  | succ f =>
    simp only [extendFwd]
    rw [if_neg h]

/-- The strict-improvement fold pushes a positive-size head past the
zero start state and keeps it when nothing later exceeds it. -/
theorem foldl_best_head (x : ℕ × ℕ × ℕ) (rest : List (ℕ × ℕ × ℕ))
    (h0 : 0 < x.2.2) (h : ∀ c ∈ rest, c.2.2 ≤ x.2.2) :
    (x :: rest).foldl (fun best c => if best.2.2 < c.2.2 then c else best)
      (0, 0, 0) = x := by
  rw [List.foldl_cons, if_pos h0]
  exact foldl_best_stays x rest h

/-- The triple-level backward extension is the identity when its guard
fails. -/
theorem extendBackT_guard (a b : List Char) (junk : Char → Bool)
    (alo blo : ℕ) (w : Bool) (t : ℕ × ℕ × ℕ)
    (h : ¬(alo < t.1 ∧ blo < t.2.1)) :
    extendBackT a b junk alo blo w t = t := by
  unfold extendBackT
  rw [extendBack_guard a b junk alo blo w t.1 t.1 t.2.1 t.2.2 h]

/-- The triple-level forward extension is the identity when its guard
fails. -/
theorem extendFwdT_guard (a b : List Char) (junk : Char → Bool)
    (ahi bhi : ℕ) (w : Bool) (t : ℕ × ℕ × ℕ)
    (h : ¬(t.1 + t.2.2 < ahi ∧ t.2.1 + t.2.2 < bhi)) :
    extendFwdT a b junk ahi bhi w t = t := by
  unfold extendFwdT
  rw [extendFwd_guard a b junk ahi bhi w ahi t.1 t.2.1 t.2.2 h]

/-- On empty ranges the DP stage yields the empty block. -/
theorem dpBest_empty (a b : List Char) (junk : Char → Bool) (x y : ℕ) :
    dpBest a b junk x x y y = (x, y, 0) := by
  unfold dpBest
  simp only [Nat.sub_self, List.range'_zero, List.flatMap_nil, List.foldl_nil]

/-- On empty ranges the longest match is the empty block. -/
theorem findLongestMatch_empty (a b : List Char) (junk : Char → Bool)
    (x y : ℕ) : findLongestMatch a b junk x x y y = (x, y, 0) := by
  unfold findLongestMatch
  rw [dpBest_empty]
  rw [extendBackT_guard a b junk x y false (x, y, 0) (by simp)]
  rw [extendFwdT_guard a b junk x y false (x, y, 0) (by simp)]
  rw [extendBackT_guard a b junk x y true (x, y, 0) (by simp)]
  rw [extendFwdT_guard a b junk x y true (x, y, 0) (by simp)]

/-- On two copies of the same junk-free sequence the DP stage finds
the whole sequence at the first candidate pair (0, 0). -/
theorem dpBest_self (l : List Char) (junk : Char → Bool)
    (hj : ∀ c, junk c = false) :
    dpBest l l junk 0 l.length 0 l.length = (0, 0, l.length) := by
  rcases Nat.eq_zero_or_pos l.length with hn | hn
  · rw [hn]
    exact dpBest_empty l l junk 0 0
  · obtain ⟨k, hk⟩ : ∃ k, l.length = k + 1 := ⟨l.length - 1, by omega⟩
    unfold dpBest
    rw [Nat.sub_zero, hk]
    rw [List.range'_succ, List.flatMap_cons, List.map_cons]
    have hml : matchLen l l junk (k + 1) (k + 1) (k + 1) 0 0 = k + 1 := by
      have h0 := matchLen_self l junk hj l.length 0 (by omega)
      rw [hk] at h0
      simpa using h0
    rw [hml, List.cons_append]
    refine foldl_best_head (0, 0, k + 1) _ (Nat.succ_pos k) ?_
    intro c hc
    rcases List.mem_append.1 hc with hc | hc
    · obtain ⟨j, hjm, rfl⟩ := List.mem_map.1 hc
      show matchLen l l junk (k + 1) (k + 1) (k + 1) 0 j ≤ k + 1
      exact le_trans (matchLen_le l l junk (k + 1) (k + 1) (k + 1) 0 j)
        (by omega)
    · obtain ⟨i, him, hcm⟩ := List.mem_flatMap.1 hc
      obtain ⟨j, hjm, rfl⟩ := List.mem_map.1 hcm
      show matchLen l l junk (k + 1) (k + 1) (k + 1) i j ≤ k + 1
      exact le_trans (matchLen_le l l junk (k + 1) (k + 1) (k + 1) i j)
        (by omega)

/-- On two copies of the same junk-free sequence the longest match is
the whole sequence (the extension loops cannot widen it). -/
theorem findLongestMatch_self (l : List Char) (junk : Char → Bool)
    (hj : ∀ c, junk c = false) :
    findLongestMatch l l junk 0 l.length 0 l.length = (0, 0, l.length) := by
  unfold findLongestMatch
  rw [dpBest_self l junk hj]
  rw [extendBackT_guard l l junk 0 0 false (0, 0, l.length) (by simp)]
  rw [extendFwdT_guard l l junk l.length l.length false (0, 0, l.length)
    (by simp)]
  rw [extendBackT_guard l l junk 0 0 true (0, 0, l.length) (by simp)]
  rw [extendFwdT_guard l l junk l.length l.length true (0, 0, l.length)
    (by simp)]

/-- On empty ranges the recursion contributes nothing. -/
theorem matchTotal_degenerate (a b : List Char) (junk : Char → Bool) :
    ∀ (f x y : ℕ), matchTotal a b junk f x x y y = 0 := by
  intro f x y
  cases f with
  | zero => rfl
  | succ f =>
    simp only [matchTotal]
    rw [findLongestMatch_empty]
    simp

/-- The total match size of a junk-free self-comparison is the whole
length. -/
theorem matchTotal_self (l : List Char) (junk : Char → Bool)
    (hj : ∀ c, junk c = false) :
    matchTotal l l junk (l.length + 1) 0 l.length 0 l.length = l.length := by
  rcases Nat.eq_zero_or_pos l.length with hn | hn
  · rw [hn]
    exact matchTotal_degenerate l l junk 1 0 0
  · simp only [matchTotal]
    rw [findLongestMatch_self l junk hj]
    dsimp only
    rw [if_neg (by omega)]
    simp only [Nat.zero_add]
    rw [matchTotal_degenerate, matchTotal_degenerate]
    omega

/-- The ratio of a sequence shorter than 200 characters with itself is
exactly 1. -/
theorem ratioOf_self (l : List Char) (h : l.length < 200) :
    ratioOf l l = 1 := by
  simp only [ratioOf]
  rw [matchTotal_self l (bIsJunk l) (bIsJunk_small l h)]
  by_cases hn : l.length + l.length = 0
  · rw [if_pos hn]
  · rw [if_neg hn]
    rw [div_eq_one_iff_eq (by exact_mod_cast hn)]
    push_cast
    ring

/-- Stripping never lengthens a sequence. -/
theorem length_stripChars_le (l : List Char) :
    (stripChars l).length ≤ l.length := by
  have hd : ∀ (p : Char → Bool) (m : List Char),
      (m.dropWhile p).length ≤ m.length := by
    intro p m
    induction m with
    | nil => simp
    | cons x xs ih =>
      rw [List.dropWhile_cons]
      split
      · exact le_trans ih (Nat.le_succ _)
      · exact le_refl _
  unfold stripChars
  calc ((l.dropWhile isSpaceChar).reverse.dropWhile
          isSpaceChar).reverse.length
      = ((l.dropWhile isSpaceChar).reverse.dropWhile isSpaceChar).length :=
        List.length_reverse _
    _ ≤ (l.dropWhile isSpaceChar).reverse.length := hd _ _
    _ = (l.dropWhile isSpaceChar).length := List.length_reverse _
    _ ≤ l.length := hd _ _

/-- string_similarity of a string shorter than 200 characters with
itself is exactly 1 (the boost-free base ratio). -/
theorem string_similarity_self (x : String) (h : x.length < 200) :
    string_similarity x x = 1 := by
  unfold string_similarity
  apply ratioOf_self
  have h1 : (lowerChars x.data).length = x.length := List.length_map _ _
  calc (stripChars (lowerChars x.data)).length
      ≤ (lowerChars x.data).length := length_stripChars_le _
    _ = x.length := h1
    _ < 200 := h

/-- C4 counterexample: "PE" is a non-empty canonical name (it is
listed under Physical_Education), yet find_best_match("PE", ["PE"])
returns no match at all — "PE" has no alphanumeric token of length ≥ 3,
so the candidate is tracked with method "similarity" (despite its
perfect edit similarity 1.0) and the acceptance gate rejects it. -/
theorem find_best_match_identity_counterexample :
    find_best_match "PE" ["PE"] (2/5) = (none, 0, "none", [])
    ∧ (find_best_match "PE" ["PE"] (2/5)).1 ≠ some "PE" := by
  have hc : has_common_words "PE" "PE" 3 = (false, []) := by decide
  have hadj : adjustedScore "PE" "PE" = 1 := by
    simp only [adjustedScore]
    rw [hc]
    dsimp only
    exact string_similarity_self "PE" (by decide)
  have hmf : matchFold "PE" ["PE"] = ⟨some "PE", 1, [], "similarity"⟩ := by
    unfold matchFold
    rw [List.foldl_cons, List.foldl_nil, matchStep_eq, hadj]
    rw [if_pos (by norm_num), hc]
    rfl
  have hfb : find_best_match "PE" ["PE"] (2/5) = (none, 0, "none", []) := by
    rw [find_best_match_eq, hmf]
    rw [if_neg]
    rintro ⟨hm, _⟩
    exact absurd hm (by decide)
  exact ⟨hfb, by rw [hfb]; exact fun h => Option.noConfusion h⟩

/-- C4 amended: for every canonical name x that contains at least one
alphanumeric token of length ≥ 3 (so the self-comparison has common
words) and is shorter than 200 characters (so difflib's autojunk
heuristic stays disengaged), find_best_match(x, [x]) does return a
match on x with method "common_words"; but the returned score is the
boosted score 1 + 0.5 × (Σ shared token length)/len(x), which is at
least 1.0 — not the bare similarity 1.0 the claim states. -/
theorem find_best_match_identity_amended (x : String)
    (h1 : (has_common_words x x 3).1 = true) (h2 : x.length < 200) :
    find_best_match x [x] (2/5) =
      (some x, 1 + (sumLens (has_common_words x x 3).2 : ℚ) /
        (x.length : ℚ) * (1/2), "common_words", (has_common_words x x 3).2)
    ∧ (1 : ℚ) ≤ 1 + (sumLens (has_common_words x x 3).2 : ℚ) /
        (x.length : ℚ) * (1/2) := by
  have hw : (0:ℚ) ≤ (sumLens (has_common_words x x 3).2 : ℚ) /
      (x.length : ℚ) * (1/2) := by positivity
  have hadj : adjustedScore x x =
      1 + (sumLens (has_common_words x x 3).2 : ℚ) /
        (x.length : ℚ) * (1/2) := by
    simp only [adjustedScore]
    rw [h1]
    rw [if_pos rfl, string_similarity_self x h2]
  have hmf : matchFold x [x] =
      ⟨some x, adjustedScore x x, (has_common_words x x 3).2,
        "common_words"⟩ := by
    unfold matchFold
    rw [List.foldl_cons, List.foldl_nil, matchStep_eq]
    rw [if_pos (by rw [hadj]; linarith)]
    rw [h1]
    rw [if_pos rfl]
  refine ⟨?_, by linarith⟩
  rw [find_best_match_eq, hmf]
  dsimp only
  rw [if_pos ⟨rfl, by rw [hadj]; linarith⟩, hadj]

/-- Witness for C4 amended at the canonical name "Biology": the match
is returned with boosted score 1.5, method common_words and shared
token "biology". -/
theorem find_best_match_identity_amended_witness :
    find_best_match "Biology" ["Biology"] (2/5) =
      (some "Biology",
        1 + (sumLens (has_common_words "Biology" "Biology" 3).2 : ℚ) /
          ("Biology".length : ℚ) * (1/2),
        "common_words", (has_common_words "Biology" "Biology" 3).2) :=
  (find_best_match_identity_amended "Biology" (by decide) (by decide)).1

/-- Concrete evaluation of a best candidate that shares the token
"abc" but whose boosted score 11/30 = 4/15 + 0.5 × 3/15 stays below
the 0.4 threshold: the function returns the fixed failure tuple. -/
theorem fbm_below_threshold_eval :
    find_best_match "abc qqqqqqqqqqq" ["abc zzzzzzzzzzz"] (2/5) =
      (none, 0, "none", [])
    ∧ matchFold "abc qqqqqqqqqqq" ["abc zzzzzzzzzzz"] =
      ⟨some "abc zzzzzzzzzzz", 11/30, ["abc"], "common_words"⟩ := by
  have hc : has_common_words "abc qqqqqqqqqqq" "abc zzzzzzzzzzz" 3 =
      (true, ["abc"]) := by decide
  have hsim : string_similarity "abc qqqqqqqqqqq" "abc zzzzzzzzzzz" = 4/15 := by
    rw [string_similarity_eval "abc qqqqqqqqqqq" "abc zzzzzzzzzzz" 4 15 15
      (by decide) (by decide) (by decide)]
    norm_num
  have hadj : adjustedScore "abc qqqqqqqqqqq" "abc zzzzzzzzzzz" = 11/30 := by
    simp only [adjustedScore]
    rw [hc]
    dsimp only
    rw [hsim, show sumLens ["abc"] = 3 from by decide,
      show ("abc qqqqqqqqqqq".length) = 15 from by decide]
    norm_num
  have hmf : matchFold "abc qqqqqqqqqqq" ["abc zzzzzzzzzzz"] =
      ⟨some "abc zzzzzzzzzzz", 11/30, ["abc"], "common_words"⟩ := by
    unfold matchFold
    rw [List.foldl_cons, List.foldl_nil, matchStep_eq, hadj]
    rw [if_pos (by norm_num), hc]
    rfl
  refine ⟨?_, hmf⟩
  rw [find_best_match_eq, hmf]
  rw [if_neg]
  rintro ⟨_, h2⟩
  norm_num at h2

/-- Concrete evaluation of an input sharing no significant token with
the only candidate: the function returns the same fixed failure
tuple. -/
theorem fbm_no_token_eval :
    find_best_match "qqq" ["zzz"] (2/5) = (none, 0, "none", []) := by
  have hc : has_common_words "qqq" "zzz" 3 = (false, []) := by decide
  have hsim : string_similarity "qqq" "zzz" = 0 := by
    rw [string_similarity_eval "qqq" "zzz" 0 3 3
      (by decide) (by decide) (by decide)]
    norm_num
  have hadj : adjustedScore "qqq" "zzz" = 0 := by
    simp only [adjustedScore]
    rw [hc]
    dsimp only
    exact hsim
  have hmf : matchFold "qqq" ["zzz"] = ⟨none, 0, [], "none"⟩ := by
    unfold matchFold
    rw [List.foldl_cons, List.foldl_nil, matchStep_eq, hadj]
    rw [if_neg (by norm_num)]
  rw [find_best_match_eq, hmf]
  rw [if_neg]
  rintro ⟨h1, _⟩
  exact absurd h1 (by decide)

/-- C8 counterexample: the "no match found" outcome (no candidate
shares a significant token) and the "matched but below threshold"
outcome (the tracked best had common words but its boosted score fell
below the threshold) produce the identical return value
(None, 0, "none", []): they are not distinguishable in the value
find_best_match returns. -/
theorem no_match_indistinguishable_counterexample :
    find_best_match "abc qqqqqqqqqqq" ["abc zzzzzzzzzzz"] (2/5) =
      (none, 0, "none", [])
    ∧ find_best_match "qqq" ["zzz"] (2/5) = (none, 0, "none", [])
    ∧ find_best_match "abc qqqqqqqqqqq" ["abc zzzzzzzzzzz"] (2/5) =
        find_best_match "qqq" ["zzz"] (2/5)
    ∧ (matchFold "abc qqqqqqqqqqq"
        ["abc zzzzzzzzzzz"]).match_method = "common_words"
    ∧ (matchFold "abc qqqqqqqqqqq" ["abc zzzzzzzzzzz"]).best_similarity < 2/5
    ∧ (has_common_words "qqq" "zzz" 3).1 = false := by
  refine ⟨fbm_below_threshold_eval.1, fbm_no_token_eval, ?_, ?_, ?_, by decide⟩
  · rw [fbm_below_threshold_eval.1, fbm_no_token_eval]
  · rw [fbm_below_threshold_eval.2]
  · rw [fbm_below_threshold_eval.2]
    norm_num

/-- C8 amended: the two non-match outcomes are not distinguishable in
the returned value: whenever the first component is None — whether
because no candidate shared a significant token or because the tracked
best fell below the threshold — the whole return value is the one
fixed failure tuple (None, 0, "none", []). -/
theorem no_match_return_amended (n : String) (l : List String) (t : ℚ)
    (h : (find_best_match n l t).1 = none) :
    find_best_match n l t = (none, 0, "none", []) := by
  rw [find_best_match_eq] at h ⊢
  by_cases hg : (matchFold n l).match_method = "common_words" ∧
      t ≤ (matchFold n l).best_similarity
  · rw [if_pos hg] at h ⊢
    exfalso
    rcases matchFold_cases n l with ⟨heq, _⟩ | ⟨m, _, heq, _, _⟩
    · rw [heq] at hg
      exact absurd hg.1 (by decide)
    · rw [heq] at h
      exact Option.noConfusion h
  · rw [if_neg hg]

/-- Witness for C8 amended at a concrete non-match. -/
theorem no_match_return_amended_witness :
    find_best_match "qqq" ["zzz"] (2/5) = (none, 0, "none", []) :=
  no_match_return_amended "qqq" ["zzz"] (2/5)
    (by rw [fbm_no_token_eval])

end APGPA
